import Mathlib

/-!
Verification of the stream supervisor (`wandb/sdk/service/streams.py`).

The Python module defines `StreamMux`, a supervisor owning a dictionary of
stream id → `StreamRecord`, an action queue of `StreamAction` records, and a
control loop `_loop` that is the only consumer of both.  We embed the state,
the per-action handlers (`_process_add`, `_process_del`, `_process_drop`,
`_process_teardown`, `_finish_all`), the orphan check `_check_orphaned` and
the control loop `_loop` as pure functions.  External collaborators
(`InterfaceRelay.communicate_status`, `communicate_poll_exit`,
`psutil.pid_exists`, `time.time`) are modelled as oracle parameters; the
while-loop of `_finish_all`, which the source lets run unboundedly, takes a
fuel parameter, with `none` meaning the loop has not terminated within the
given fuel.
-/

namespace Streams

/-! ## Python dict as an insertion-ordered association list -/

/-- Lookup in an insertion-ordered association list (Python `d[k]` / `k in d`). -/
def dictLookup {α : Type} (m : List (String × α)) (k : String) : Option α :=
  match m with
  | [] => none
  | (k2, v) :: rest => if k2 = k then some v else dictLookup rest k

/-- Python `d[k] = v`: replace in place when the key exists, else append. -/
def dictInsert {α : Type} (m : List (String × α)) (k : String) (v : α) :
    List (String × α) :=
  match m with
  | [] => [(k, v)]
  | (k2, v2) :: rest =>
      if k2 = k then (k, v) :: rest else (k2, v2) :: dictInsert rest k v

/-- Python `d.pop(k)`: remove the key and return its value, `none` when the
key is absent (the source then raises `KeyError`). -/
def dictPop {α : Type} (m : List (String × α)) (k : String) :
    Option (α × List (String × α)) :=
  match m with
  | [] => none
  | (k2, v2) :: rest =>
      if k2 = k then some (v2, rest)
      else
        match dictPop rest k with
        | none => none
        | some (v, rest2) => some (v, (k2, v2) :: rest2)

/-! ## Data model -/

/-- Errors the Python handlers can raise: `KeyError` from `dict.pop` on an
absent id, `AssertionError` from `_wait_thread_active` (status probe falsy)
or from an unsupported action kind. -/
inductive MuxError where
  | keyError : String → MuxError
  | assertionError : MuxError
deriving Repr, DecidableEq

/-- Model of `StreamRecord`, the per-stream execution context.  We keep the
config blob (abstracted to a number), and the lifecycle flags that the source
mutates: whether `start_thread` launched the worker thread, whether the
initial `communicate_status` probe was acknowledged, and whether the
interface was dropped. -/
structure StreamRecord where
  settings : Nat
  threadStarted : Bool
  probeAcked : Bool
  dropped : Bool
deriving Repr, DecidableEq

/-- Model of a fresh `StreamRecord()`: queues allocated, thread not started. -/
def newStreamRecord (settings : Nat) : StreamRecord :=
  ⟨settings, false, false, false⟩

/-- Model of `StreamRecord.start_thread`: start the thread, then
`_wait_thread_active` asserts that `communicate_status()` returned a truthy
result.  `statusOk` is the oracle for that probe result; a falsy result
raises `AssertionError`. -/
def startThread (statusOk : Bool) (r : StreamRecord) : Except MuxError StreamRecord :=
  let started := { r with threadStarted := true }
  if statusOk then Except.ok { started with probeAcked := true }
  else Except.error MuxError.assertionError

/-- The kinds of `StreamAction` the source dispatches on (`add`, `del`,
`drop`, `teardown`). -/
inductive ActionKind where
  | add
  | del
  | drop
  | teardown
deriving Repr, DecidableEq

/-- Model of `StreamAction`: kind, target stream id, payload (`settings` for
add, `exit_code` for teardown), and the completion `Event`.  We count the
calls to `set_handled` so that "set exactly once" is expressible. -/
structure StreamAction where
  kind : ActionKind
  streamId : String
  payload : Nat
  handledCount : Nat
deriving Repr, DecidableEq

/-- Model of `StreamAction.__init__`: the completion event starts unset. -/
def mkAction (kind : ActionKind) (streamId : String) (payload : Nat) : StreamAction :=
  ⟨kind, streamId, payload, 0⟩

/-- Model of `action.set_handled()`. -/
def setHandled (a : StreamAction) : StreamAction :=
  { a with handledCount := a.handledCount + 1 }

/-- Model of the `StreamMux` state: the id → record map, optional port and
owner pid, the stop event and the orphan-check timestamp.  The action queue
is modelled separately as the list of actions fed to the loop. -/
structure StreamMux where
  streams : List (String × StreamRecord)
  port : Option Nat
  pid : Option Nat
  stopped : Bool
  pidCheckedTs : Option Nat
deriving Repr, DecidableEq

/-- Model of `StreamMux.__init__`. -/
def initMux : StreamMux :=
  ⟨[], none, none, false, none⟩

/-- Model of `set_port`. -/
def setPort (s : StreamMux) (port : Nat) : StreamMux :=
  { s with port := some port }

/-- Model of `set_pid`. -/
def setPid (s : StreamMux) (pid : Nat) : StreamMux :=
  { s with pid := some pid }

/-- Accessor `stream_names`. -/
def streamNames (s : StreamMux) : List String :=
  s.streams.map Prod.fst

/-- Accessor `has_stream`. -/
def hasStream (s : StreamMux) (streamId : String) : Bool :=
  (dictLookup s.streams streamId).isSome

/-- Accessor `get_stream`: `self._streams[stream_id]`, `KeyError` if absent. -/
def getStream (s : StreamMux) (streamId : String) : Except MuxError StreamRecord :=
  match dictLookup s.streams streamId with
  | none => Except.error (MuxError.keyError streamId)
  | some r => Except.ok r

/-! ## Per-action handlers -/

/-- Handler `_process_add`: build a fresh `StreamRecord`, start its thread (probe
result given by `statusOk`), then register it under the action's stream id.
The source performs no membership check: an existing entry is overwritten. -/
def processAdd (statusOk : Bool) (s : StreamMux) (streamId : String)
    (settings : Nat) : Except MuxError StreamMux :=
  match startThread statusOk (newStreamRecord settings) with
  | Except.error e => Except.error e
  | Except.ok r => Except.ok { s with streams := dictInsert s.streams streamId r }

/-- Handler `_process_del`: `self._streams.pop(stream_id)` then `stream.join()`.
`pop` raises `KeyError` when the id is absent, before any mutation. -/
def processDel (s : StreamMux) (streamId : String) : Except MuxError StreamMux :=
  match dictPop s.streams streamId with
  | none => Except.error (MuxError.keyError streamId)
  | some (_, rest) => Except.ok { s with streams := rest }

/-- Handler `_process_drop`: `pop`, `stream.drop()`, `stream.join()`; `KeyError`
when absent, exactly like `_process_del`. -/
def processDrop (s : StreamMux) (streamId : String) : Except MuxError StreamMux :=
  match dictPop s.streams streamId with
  | none => Except.error (MuxError.keyError streamId)
  | some (_, rest) => Except.ok { s with streams := rest }

/-! ## Drain protocol (`_finish_all`)

`communicate_poll_exit` is an external call; we model its reply with an
oracle `done : String → Nat → Bool` giving, for each stream id and each
cycle of the while-loop, whether the response was non-`None` with
`done = True`.  A stream still pending at cycle `c` has been polled exactly
once in every earlier cycle, so indexing by cycle number is faithful. -/

/-- One pass of `for sid, stream in list(streams.items())`: poll each
pending stream once; completed streams are popped and appended (in
iteration order) to `streams_to_join`.  Returns (still pending, newly
done).  `time.sleep(0.1)` runs once per iterated stream, i.e. `pending`
many times in this pass. -/
def pollCycle (done : String → Nat → Bool) (c : Nat) :
    List (String × StreamRecord) →
      List (String × StreamRecord) × List (String × StreamRecord)
  | [] => ([], [])
  | (sid, st) :: rest =>
      let pr := pollCycle done c rest
      if done sid c then (pr.1, (sid, st) :: pr.2)
      else ((sid, st) :: pr.1, pr.2)

/-- Accumulated observables of the drain loop: the `streams_to_join` list,
the number of `time.sleep(0.1)` calls performed, and the number of
while-loop cycles executed. -/
structure DrainState where
  toJoin : List (String × StreamRecord)
  sleeps : Nat
  cycles : Nat
deriving Repr, DecidableEq

/-- The `while streams:` loop of `_finish_all`.  `fuel` bounds the number
of cycles we are willing to run; `none` means the loop did not terminate
within the fuel (in the source it simply keeps polling forever). -/
def drainLoop (done : String → Nat → Bool) (fuel : Nat) (c : Nat)
    (pending : List (String × StreamRecord)) (acc : DrainState) :
    Option DrainState :=
  match pending with
  | [] => some acc
  | _ :: _ =>
      match fuel with
      | 0 => none
      | Nat.succ f =>
          let pr := pollCycle done c pending
          drainLoop done f (c + 1) pr.1
            ⟨acc.toJoin ++ pr.2, acc.sleeps + pending.length, acc.cycles + 1⟩

/-- Observables of a completed `_finish_all` run: the `publish_exit`
messages sent in fan-out order, the joined streams in join order, and the
sleep/cycle counts. -/
structure DrainResult where
  published : List (String × Nat)
  joined : List (String × StreamRecord)
  sleeps : Nat
  cycles : Nat
deriving Repr, DecidableEq

/-- Model of `_finish_all(streams, exit_code)`: early return when the snapshot is
empty; otherwise publish `exit_code` to every stream, then poll until no
stream is pending, then join every completed stream. -/
def finishAll (done : String → Nat → Bool) (fuel : Nat) (exitCode : Nat)
    (streams : List (String × StreamRecord)) : Option DrainResult :=
  match streams with
  | [] => some ⟨[], [], 0, 0⟩
  | _ :: _ =>
      match drainLoop done fuel 0 streams ⟨[], 0, 0⟩ with
      | none => none
      | some d =>
          some ⟨streams.map (fun p => (p.1, exitCode)), d.toJoin, d.sleeps, d.cycles⟩

/-- Handler `_process_teardown`: snapshot the map under the lock, run `_finish_all`
on the snapshot, then clear the map and set the stop event.  `none` when
the drain never terminates (so neither does teardown). -/
def processTeardown (done : String → Nat → Bool) (fuel : Nat) (s : StreamMux)
    (exitCode : Nat) : Option (StreamMux × DrainResult) :=
  match finishAll done fuel exitCode s.streams with
  | none => none
  | some r => some ({ s with streams := [], stopped := true }, r)

/-! ## Orphan check -/

/-- Python truthiness of the optional pid: `not self._pid` is true for
`None` and for `0`. -/
def pidTruthy : Option Nat → Bool
  | none => false
  | some p => decide (p ≠ 0)

/-- The throttle condition `self._pid_checked_ts and time_now <
self._pid_checked_ts + 2` (a zero timestamp is falsy in Python). -/
def throttled (s : StreamMux) (now : Nat) : Bool :=
  match s.pidCheckedTs with
  | none => false
  | some t => decide (t ≠ 0) && decide (now < t + 2)

/-- Model of `_check_orphaned`: `False` immediately when no (truthy) pid is
configured; `False` without probing when throttled; otherwise record the
current time and probe `psutil.pid_exists`. -/
def checkOrphaned (pidExists : Nat → Bool) (now : Nat) (s : StreamMux) :
    Bool × StreamMux :=
  match s.pid with
  | none => (false, s)
  | some p =>
      if p = 0 then (false, s)
      else if throttled s now then (false, s)
      else (!pidExists p, { s with pidCheckedTs := some now })

/-! ## Control loop -/

/-- Dispatch of `_process_action` plus the exception behavior of the
handlers: `ok` when the handler returned, `raised` (carrying the state at
raise time — all raises happen before any map mutation) when it threw, and
`hang` when a teardown's drain never terminates. -/
inductive StepOutcome where
  | ok : StreamMux → StepOutcome
  | raised : MuxError → StreamMux → StepOutcome
  | hang : StepOutcome
deriving Repr, DecidableEq

/-- Dispatcher `_process_action(action)`. -/
def processAction (statusOk : String → Bool) (done : String → Nat → Bool)
    (fuel : Nat) (s : StreamMux) (a : StreamAction) : StepOutcome :=
  match a.kind with
  | ActionKind.add =>
      match processAdd (statusOk a.streamId) s a.streamId a.payload with
      | Except.ok s2 => StepOutcome.ok s2
      | Except.error e => StepOutcome.raised e s
  | ActionKind.del =>
      match processDel s a.streamId with
      | Except.ok s2 => StepOutcome.ok s2
      | Except.error e => StepOutcome.raised e s
  | ActionKind.drop =>
      match processDrop s a.streamId with
      | Except.ok s2 => StepOutcome.ok s2
      | Except.error e => StepOutcome.raised e s
  | ActionKind.teardown =>
      match processTeardown done fuel s a.payload with
      | none => StepOutcome.hang
      | some (s2, _) => StepOutcome.ok s2

/-- How `_loop` ended: `joined` — the while loop exited and the final
`self._action_q.join()` returned (no unfinished tasks); `blockedInJoin` —
the while loop exited but unhandled queue items make `join()` block
forever; `raised` — a handler's exception propagated out of `_loop`;
`hung` — a teardown drain never returned; `waiting` — the queue ran dry
while the loop was still running (it keeps cycling on the 1s get timeout). -/
inductive LoopOutcome where
  | joined : LoopOutcome
  | blockedInJoin : LoopOutcome
  | raised : MuxError → LoopOutcome
  | hung : LoopOutcome
  | waiting : LoopOutcome
deriving Repr, DecidableEq

/-- Result of running `_loop` against a FIFO queue of actions: final mux
state, the actions dequeued (in order, with their final `set_handled`
counts), the actions never dequeued, the number of `task_done()` calls,
and how the loop ended. -/
structure LoopResult where
  state : StreamMux
  dequeued : List StreamAction
  remaining : List StreamAction
  taskDone : Nat
  outcome : LoopOutcome
deriving Repr, DecidableEq

/-- Inline part of a `_loop` iteration: run `_check_orphaned` and set the
stop event on a positive result ("parent process is gone"). -/
def orphanStep (pidExists : Nat → Bool) (now : Nat) (s : StreamMux) : StreamMux :=
  let co := checkOrphaned pidExists now s
  if co.1 then { co.2 with stopped := true } else co.2

/-- Model of `_loop`: while the stop event is unset — run the orphan check
(setting the stop event on a positive), dequeue the next action (each
iteration `i` observes wall-clock `times i`), process it, `set_handled`,
`task_done`; after the while loop, `self._action_q.join()` returns only if
every enqueued action was `task_done`d.  Exceptions from `_process_action`
propagate (skipping `set_handled` and `task_done`). -/
def loopRun (statusOk : String → Bool) (done : String → Nat → Bool)
    (pidExists : Nat → Bool) (times : Nat → Nat) (fuel : Nat) (iter : Nat)
    (s : StreamMux) (queue : List StreamAction) : LoopResult :=
  if s.stopped then
    ⟨s, [], queue, 0,
      if queue.isEmpty then LoopOutcome.joined else LoopOutcome.blockedInJoin⟩
  else
    match queue with
    | [] =>
        if (orphanStep pidExists (times iter) s).stopped then
          ⟨orphanStep pidExists (times iter) s, [], [], 0, LoopOutcome.joined⟩
        else ⟨orphanStep pidExists (times iter) s, [], [], 0, LoopOutcome.waiting⟩
    | a :: rest =>
        match processAction statusOk done fuel (orphanStep pidExists (times iter) s) a with
        | StepOutcome.ok s2 =>
            let r := loopRun statusOk done pidExists times fuel (iter + 1) s2 rest
            ⟨r.state, setHandled a :: r.dequeued, r.remaining, r.taskDone + 1,
              r.outcome⟩
        | StepOutcome.raised e s2 =>
            ⟨s2, [a], rest, 0, LoopOutcome.raised e⟩
        | StepOutcome.hang =>
            ⟨orphanStep pidExists (times iter) s, [a], rest, 0, LoopOutcome.hung⟩

/-- Sizes of the pending set at the start of each executed cycle of the
drain loop, in cycle order (used to relate sleep counts to cycles). -/
def cyclePendingSizes (done : String → Nat → Bool) (fuel : Nat) (c : Nat)
    (pending : List (String × StreamRecord)) : List Nat :=
  match pending with
  | [] => []
  | _ :: _ =>
      match fuel with
      | 0 => []
      | Nat.succ f =>
          pending.length ::
            cyclePendingSizes done f (c + 1) (pollCycle done c pending).1

/-- Registration invariant: every record in the map has a started worker
thread whose initial status probe was acknowledged. -/
def streamsInv (s : StreamMux) : Prop :=
  ∀ p ∈ s.streams, p.2.threadStarted = true ∧ p.2.probeAcked = true

instance streamsInvDecidable (s : StreamMux) : Decidable (streamsInv s) :=
  List.decidableBAll _ s.streams

/-! ## Helper lemmas about the dict operations -/

theorem dictLookup_dictInsert_self {α : Type} (m : List (String × α)) (k : String)
    (v : α) : dictLookup (dictInsert m k v) k = some v := by
  induction m with
  | nil => simp [dictInsert, dictLookup]
  | cons hd tl ih =>
      obtain ⟨k2, v2⟩ := hd
      by_cases h : k2 = k
      · simp [dictInsert, dictLookup, h]
      · simp [dictInsert, dictLookup, h, ih]

theorem mem_dictInsert {α : Type} {m : List (String × α)} {k : String} {v : α}
    {p : String × α} (hp : p ∈ dictInsert m k v) : p = (k, v) ∨ p ∈ m := by
  induction m with
  | nil => simpa [dictInsert] using hp
  | cons hd tl ih =>
      obtain ⟨k2, v2⟩ := hd
      by_cases h : k2 = k
      · simp only [dictInsert, if_pos h] at hp
        rcases List.mem_cons.mp hp with h1 | h1
        · exact Or.inl h1
        · exact Or.inr (List.mem_cons_of_mem _ h1)
      · simp only [dictInsert, if_neg h] at hp
        rcases List.mem_cons.mp hp with h1 | h1
        · exact Or.inr (h1 ▸ List.mem_cons_self _ _)
        · rcases ih h1 with h2 | h2
          · exact Or.inl h2
          · exact Or.inr (List.mem_cons_of_mem _ h2)

theorem dictPop_of_lookup_none {α : Type} {m : List (String × α)} {k : String}
    (h : dictLookup m k = none) : dictPop m k = none := by
  induction m with
  | nil => rfl
  | cons hd tl ih =>
      obtain ⟨k2, v2⟩ := hd
      by_cases hk : k2 = k
      · simp [dictLookup, hk] at h
      · simp only [dictLookup, if_neg hk] at h
        simp [dictPop, hk, ih h]

theorem mem_of_mem_dictPop {α : Type} {m : List (String × α)} {k : String} {v : α}
    {rest : List (String × α)} (h : dictPop m k = some (v, rest)) {p : String × α}
    (hp : p ∈ rest) : p ∈ m := by
  induction m generalizing v rest with
  | nil => simp [dictPop] at h
  | cons hd tl ih =>
      obtain ⟨k2, v2⟩ := hd
      by_cases hk : k2 = k
      · simp only [dictPop, if_pos hk, Option.some.injEq, Prod.mk.injEq] at h
        exact List.mem_cons_of_mem _ (h.2 ▸ hp)
      · simp only [dictPop, if_neg hk] at h
        cases hpop : dictPop tl k with
        | none => rw [hpop] at h; cases h
        | some pr =>
            obtain ⟨v3, rest3⟩ := pr
            rw [hpop] at h
            simp only [Option.some.injEq, Prod.mk.injEq] at h
            obtain ⟨hv, ht⟩ := h
            rcases List.mem_cons.mp (ht ▸ hp) with h1 | h1
            · exact h1 ▸ List.mem_cons_self _ _
            · exact List.mem_cons_of_mem _ (ih (hv ▸ hpop) h1)

theorem mem_of_dictLookup {α : Type} {m : List (String × α)} {k : String} {v : α}
    (h : dictLookup m k = some v) : (k, v) ∈ m := by
  induction m with
  | nil => simp [dictLookup] at h
  | cons hd tl ih =>
      obtain ⟨k2, v2⟩ := hd
      by_cases hk : k2 = k
      · simp only [dictLookup, if_pos hk, Option.some.injEq] at h
        rw [← hk, ← h]
        exact List.mem_cons_self _ _
      · simp only [dictLookup, if_neg hk] at h
        exact List.mem_cons_of_mem _ (ih h)

/-! ## Helper lemmas about the drain protocol -/

theorem pollCycle_partition (done : String → Nat → Bool) (c : Nat)
    {l : List (String × StreamRecord)} {p : String × StreamRecord} (hp : p ∈ l) :
    (done p.1 c = true ∧ p ∈ (pollCycle done c l).2) ∨
    (done p.1 c = false ∧ p ∈ (pollCycle done c l).1) := by
  induction l with
  | nil => simp at hp
  | cons hd tl ih =>
      obtain ⟨sid, st⟩ := hd
      rcases List.mem_cons.mp hp with h1 | h1
      · subst h1
        cases hdone : done sid c
        · exact Or.inr ⟨rfl, by simp [pollCycle, hdone]⟩
        · exact Or.inl ⟨rfl, by simp [pollCycle, hdone]⟩
      · rcases ih h1 with ⟨hd1, hm⟩ | ⟨hd1, hm⟩
        · refine Or.inl ⟨hd1, ?_⟩
          cases hdone : done sid c <;> simp [pollCycle, hdone, hm]
        · refine Or.inr ⟨hd1, ?_⟩
          cases hdone : done sid c <;> simp [pollCycle, hdone, hm]

theorem pollCycle_pending_mem (done : String → Nat → Bool) (c : Nat)
    {l : List (String × StreamRecord)} {p : String × StreamRecord}
    (hp : p ∈ (pollCycle done c l).1) : p ∈ l ∧ done p.1 c = false := by
  induction l with
  | nil => simp [pollCycle] at hp
  | cons hd tl ih =>
      obtain ⟨sid, st⟩ := hd
      cases hdone : done sid c
      · simp only [pollCycle, hdone] at hp
        rcases List.mem_cons.mp hp with h1 | h1
        · subst h1
          exact ⟨List.mem_cons_self _ _, hdone⟩
        · obtain ⟨hm, hd2⟩ := ih h1
          exact ⟨List.mem_cons_of_mem _ hm, hd2⟩
      · simp only [pollCycle, hdone] at hp
        obtain ⟨hm, hd2⟩ := ih hp
        exact ⟨List.mem_cons_of_mem _ hm, hd2⟩

theorem pollCycle_done_mem (done : String → Nat → Bool) (c : Nat)
    {l : List (String × StreamRecord)} {p : String × StreamRecord}
    (hp : p ∈ (pollCycle done c l).2) : p ∈ l ∧ done p.1 c = true := by
  induction l with
  | nil => simp [pollCycle] at hp
  | cons hd tl ih =>
      obtain ⟨sid, st⟩ := hd
      cases hdone : done sid c
      · simp only [pollCycle, hdone] at hp
        obtain ⟨hm, hd2⟩ := ih hp
        exact ⟨List.mem_cons_of_mem _ hm, hd2⟩
      · simp only [pollCycle, hdone] at hp
        rcases List.mem_cons.mp hp with h1 | h1
        · subst h1
          exact ⟨List.mem_cons_self _ _, hdone⟩
        · obtain ⟨hm, hd2⟩ := ih h1
          exact ⟨List.mem_cons_of_mem _ hm, hd2⟩

theorem drainLoop_all_done {done : String → Nat → Bool} :
    ∀ {fuel c : Nat} {pending : List (String × StreamRecord)} {acc d : DrainState},
      drainLoop done fuel c pending acc = some d →
      ∀ p ∈ pending, ∃ k, done p.1 k = true := by
  intro fuel
  induction fuel with
  | zero =>
      intro c pending acc d h p hp
      cases pending with
      | nil => simp at hp
      | cons q t => simp [drainLoop] at h
  | succ f ih =>
      intro c pending acc d h p hp
      cases pending with
      | nil => simp at hp
      | cons q t =>
          rcases pollCycle_partition done c hp with ⟨hd1, _⟩ | ⟨_, hm⟩
          · exact ⟨c, hd1⟩
          · have h2 : drainLoop done f (c + 1) (pollCycle done c (q :: t)).1
                ⟨acc.toJoin ++ (pollCycle done c (q :: t)).2,
                  acc.sleeps + (q :: t).length, acc.cycles + 1⟩ = some d := by
              simpa [drainLoop] using h
            exact ih h2 p hm

theorem drainLoop_joined_mem {done : String → Nat → Bool} :
    ∀ {fuel c : Nat} {pending : List (String × StreamRecord)} {acc d : DrainState},
      drainLoop done fuel c pending acc = some d →
      ∀ p ∈ d.toJoin, p ∈ acc.toJoin ∨ (p ∈ pending ∧ ∃ k, done p.1 k = true) := by
  intro fuel
  induction fuel with
  | zero =>
      intro c pending acc d h p hp
      cases pending with
      | nil =>
          simp only [drainLoop, Option.some.injEq] at h
          exact Or.inl (h ▸ hp)
      | cons q t => simp [drainLoop] at h
  | succ f ih =>
      intro c pending acc d h p hp
      cases pending with
      | nil =>
          simp only [drainLoop, Option.some.injEq] at h
          exact Or.inl (h ▸ hp)
      | cons q t =>
          have h2 : drainLoop done f (c + 1) (pollCycle done c (q :: t)).1
              ⟨acc.toJoin ++ (pollCycle done c (q :: t)).2,
                acc.sleeps + (q :: t).length, acc.cycles + 1⟩ = some d := by
            simpa [drainLoop] using h
          rcases ih h2 p hp with h3 | ⟨h3, hk⟩
          · rcases List.mem_append.mp h3 with h4 | h4
            · exact Or.inl h4
            · obtain ⟨hm, hd2⟩ := pollCycle_done_mem done c h4
              exact Or.inr ⟨hm, c, hd2⟩
          · obtain ⟨hm, _⟩ := pollCycle_pending_mem done c h3
            exact Or.inr ⟨hm, hk⟩

theorem drainLoop_never_done {done : String → Nat → Bool}
    {p : String × StreamRecord} (hnever : ∀ k, done p.1 k = false) :
    ∀ (fuel c : Nat) (pending : List (String × StreamRecord)) (acc : DrainState),
      p ∈ pending → drainLoop done fuel c pending acc = none := by
  intro fuel
  induction fuel with
  | zero =>
      intro c pending acc hp
      cases pending with
      | nil => simp at hp
      | cons q t => simp [drainLoop]
  | succ f ih =>
      intro c pending acc hp
      cases pending with
      | nil => simp at hp
      | cons q t =>
          have hpend : p ∈ (pollCycle done c (q :: t)).1 := by
            rcases pollCycle_partition done c hp with ⟨hd1, _⟩ | ⟨_, hm⟩
            · rw [hnever c] at hd1; cases hd1
            · exact hm
          simpa [drainLoop] using ih (c + 1) _ _ hpend

theorem drainLoop_counts {done : String → Nat → Bool} :
    ∀ (fuel c : Nat) (pending : List (String × StreamRecord)) (acc d : DrainState),
      drainLoop done fuel c pending acc = some d →
      d.sleeps = acc.sleeps + (cyclePendingSizes done fuel c pending).sum ∧
      d.cycles = acc.cycles + (cyclePendingSizes done fuel c pending).length := by
  intro fuel
  induction fuel with
  | zero =>
      intro c pending acc d h
      cases pending with
      | nil =>
          simp only [drainLoop, Option.some.injEq] at h
          subst h
          simp [cyclePendingSizes]
      | cons q t => simp [drainLoop] at h
  | succ f ih =>
      intro c pending acc d h
      cases pending with
      | nil =>
          simp only [drainLoop, Option.some.injEq] at h
          subst h
          simp [cyclePendingSizes]
      | cons q t =>
          have h2 : drainLoop done f (c + 1) (pollCycle done c (q :: t)).1
              ⟨acc.toJoin ++ (pollCycle done c (q :: t)).2,
                acc.sleeps + (q :: t).length, acc.cycles + 1⟩ = some d := by
            simpa [drainLoop] using h
          obtain ⟨h3, h4⟩ := ih (c + 1) _ _ _ h2
          constructor
          · rw [h3]
            simp [cyclePendingSizes]
            omega
          · rw [h4]
            simp [cyclePendingSizes]
            omega

/-! ## Helper lemmas about the orphan check and the handlers -/

theorem checkOrphaned_throttle (pidExists : Nat → Bool) (now : Nat) (s : StreamMux)
    (t : Nat) (hts : s.pidCheckedTs = some t) (ht0 : t ≠ 0) (hlt : now < t + 2) :
    checkOrphaned pidExists now s = (false, s) := by
  unfold checkOrphaned
  cases hp : s.pid with
  | none => rfl
  | some p =>
      by_cases hp0 : p = 0
      · simp [hp0]
      · have hth : throttled s now = true := by
          simp [throttled, hts, ht0, hlt]
        simp [hp0, hth]

theorem checkOrphaned_probe (pidExists : Nat → Bool) (now : Nat) (s : StreamMux)
    (p : Nat) (hp : s.pid = some p) (hp0 : p ≠ 0) (hth : throttled s now = false) :
    checkOrphaned pidExists now s =
      (!pidExists p, { s with pidCheckedTs := some now }) := by
  unfold checkOrphaned
  rw [hp]
  simp [hp0, hth]

theorem checkOrphaned_disabled (pidExists : Nat → Bool) (now : Nat) (s : StreamMux)
    (h : pidTruthy s.pid = false) :
    checkOrphaned pidExists now s = (false, s) := by
  unfold checkOrphaned
  cases hp : s.pid with
  | none => rfl
  | some p =>
      rw [hp] at h
      simp only [pidTruthy, decide_eq_false_iff_not, not_not] at h
      simp [h]

theorem orphanStep_disabled (pidExists : Nat → Bool) (now : Nat) (s : StreamMux)
    (h : pidTruthy s.pid = false) : orphanStep pidExists now s = s := by
  unfold orphanStep
  rw [checkOrphaned_disabled pidExists now s h]
  rfl

theorem orphanStep_detect (pidExists : Nat → Bool) (now : Nat) (s : StreamMux)
    (p : Nat) (hp : s.pid = some p) (hp0 : p ≠ 0) (hth : throttled s now = false)
    (hgone : pidExists p = false) :
    orphanStep pidExists now s =
      { s with pidCheckedTs := some now, stopped := true } := by
  unfold orphanStep
  rw [checkOrphaned_probe pidExists now s p hp hp0 hth, hgone]
  rfl

theorem processAdd_ok {statusOk : Bool} {s : StreamMux} {sid : String} {cfg : Nat}
    {s2 : StreamMux} (h : processAdd statusOk s sid cfg = Except.ok s2) :
    statusOk = true ∧
    s2 = { s with streams := dictInsert s.streams sid ⟨cfg, true, true, false⟩ } := by
  cases statusOk
  · simp [processAdd, startThread, newStreamRecord] at h
  · refine ⟨rfl, ?_⟩
    simp only [processAdd, startThread, newStreamRecord, if_pos] at h
    cases h
    rfl

theorem processAdd_fail (s : StreamMux) (sid : String) (cfg : Nat) :
    processAdd false s sid cfg = Except.error MuxError.assertionError := by
  rfl

theorem processDel_ok {s : StreamMux} {sid : String} {s2 : StreamMux}
    (h : processDel s sid = Except.ok s2) :
    ∃ v rest, dictPop s.streams sid = some (v, rest) ∧
      s2 = { s with streams := rest } := by
  unfold processDel at h
  cases hp : dictPop s.streams sid with
  | none => rw [hp] at h; cases h
  | some pr =>
      obtain ⟨v, rest⟩ := pr
      rw [hp] at h
      cases h
      exact ⟨v, rest, rfl, rfl⟩

theorem processDrop_ok {s : StreamMux} {sid : String} {s2 : StreamMux}
    (h : processDrop s sid = Except.ok s2) :
    ∃ v rest, dictPop s.streams sid = some (v, rest) ∧
      s2 = { s with streams := rest } := by
  unfold processDrop at h
  cases hp : dictPop s.streams sid with
  | none => rw [hp] at h; cases h
  | some pr =>
      obtain ⟨v, rest⟩ := pr
      rw [hp] at h
      cases h
      exact ⟨v, rest, rfl, rfl⟩

theorem processTeardown_some {done : String → Nat → Bool} {fuel : Nat}
    {s : StreamMux} {code : Nat} {s2 : StreamMux} {r : DrainResult}
    (h : processTeardown done fuel s code = some (s2, r)) :
    s2 = { s with streams := [], stopped := true } ∧
    finishAll done fuel code s.streams = some r := by
  unfold processTeardown at h
  cases hf : finishAll done fuel code s.streams with
  | none => rw [hf] at h; cases h
  | some r2 =>
      rw [hf] at h
      cases h
      exact ⟨rfl, rfl⟩

theorem processAction_ok_fields {statusOk : String → Bool}
    {done : String → Nat → Bool} {fuel : Nat} {s : StreamMux} {a : StreamAction}
    {s2 : StreamMux} (h : processAction statusOk done fuel s a = StepOutcome.ok s2) :
    s2.pid = s.pid ∧ s2.port = s.port ∧ s2.pidCheckedTs = s.pidCheckedTs ∧
    (s2.stopped = s.stopped ∨
      (a.kind = ActionKind.teardown ∧ s2.stopped = true)) := by
  cases hk : a.kind
  case add =>
      simp only [processAction, hk] at h
      cases hadd : processAdd (statusOk a.streamId) s a.streamId a.payload with
      | error e => rw [hadd] at h; cases h
      | ok s3 =>
          rw [hadd] at h
          cases h
          obtain ⟨_, hs⟩ := processAdd_ok hadd
          subst hs
          exact ⟨rfl, rfl, rfl, Or.inl rfl⟩
  case del =>
      simp only [processAction, hk] at h
      cases hdel : processDel s a.streamId with
      | error e => rw [hdel] at h; cases h
      | ok s3 =>
          rw [hdel] at h
          cases h
          obtain ⟨v, rest, _, hs⟩ := processDel_ok hdel
          subst hs
          exact ⟨rfl, rfl, rfl, Or.inl rfl⟩
  case drop =>
      simp only [processAction, hk] at h
      cases hdrop : processDrop s a.streamId with
      | error e => rw [hdrop] at h; cases h
      | ok s3 =>
          rw [hdrop] at h
          cases h
          obtain ⟨v, rest, _, hs⟩ := processDrop_ok hdrop
          subst hs
          exact ⟨rfl, rfl, rfl, Or.inl rfl⟩
  case teardown =>
      simp only [processAction, hk] at h
      cases ht : processTeardown done fuel s a.payload with
      | none => rw [ht] at h; cases h
      | some pr =>
          obtain ⟨s3, r⟩ := pr
          rw [ht] at h
          cases h
          obtain ⟨hs, _⟩ := processTeardown_some ht
          subst hs
          exact ⟨rfl, rfl, rfl, Or.inr ⟨rfl, rfl⟩⟩

theorem processAction_raised_state {statusOk : String → Bool}
    {done : String → Nat → Bool} {fuel : Nat} {s : StreamMux} {a : StreamAction}
    {e : MuxError} {s2 : StreamMux}
    (h : processAction statusOk done fuel s a = StepOutcome.raised e s2) :
    s2 = s := by
  cases hk : a.kind
  case add =>
      simp only [processAction, hk] at h
      cases hadd : processAdd (statusOk a.streamId) s a.streamId a.payload with
      | error e2 => rw [hadd] at h; cases h; rfl
      | ok s3 => rw [hadd] at h; cases h
  case del =>
      simp only [processAction, hk] at h
      cases hdel : processDel s a.streamId with
      | error e2 => rw [hdel] at h; cases h; rfl
      | ok s3 => rw [hdel] at h; cases h
  case drop =>
      simp only [processAction, hk] at h
      cases hdrop : processDrop s a.streamId with
      | error e2 => rw [hdrop] at h; cases h; rfl
      | ok s3 => rw [hdrop] at h; cases h
  case teardown =>
      simp only [processAction, hk] at h
      cases ht : processTeardown done fuel s a.payload with
      | none => rw [ht] at h; cases h
      | some pr => obtain ⟨s3, r⟩ := pr; rw [ht] at h; cases h

theorem orphanStep_streams (pidExists : Nat → Bool) (now : Nat) (s : StreamMux) :
    (orphanStep pidExists now s).streams = s.streams ∧
    (orphanStep pidExists now s).pid = s.pid := by
  unfold orphanStep checkOrphaned
  cases hp : s.pid with
  | none => exact ⟨rfl, hp⟩
  | some p =>
      by_cases hp0 : p = 0
      · simp [hp0, hp]
      · by_cases hth : throttled s now = true
        · simp [hp0, hth, hp]
        · simp only [Bool.not_eq_true] at hth
          cases hgone : pidExists p <;> simp [hp0, hth, hgone, hp]

theorem processAction_ok_inv {statusOk : String → Bool}
    {done : String → Nat → Bool} {fuel : Nat} {s : StreamMux} {a : StreamAction}
    {s2 : StreamMux} (h : processAction statusOk done fuel s a = StepOutcome.ok s2)
    (hinv : streamsInv s) : streamsInv s2 := by
  cases hk : a.kind
  case add =>
      simp only [processAction, hk] at h
      cases hadd : processAdd (statusOk a.streamId) s a.streamId a.payload with
      | error e => rw [hadd] at h; cases h
      | ok s3 =>
          rw [hadd] at h
          cases h
          obtain ⟨_, hs⟩ := processAdd_ok hadd
          subst hs
          intro p hp
          rcases mem_dictInsert hp with h1 | h1
          · subst h1; exact ⟨rfl, rfl⟩
          · exact hinv p h1
  case del =>
      simp only [processAction, hk] at h
      cases hdel : processDel s a.streamId with
      | error e => rw [hdel] at h; cases h
      | ok s3 =>
          rw [hdel] at h
          cases h
          obtain ⟨v, rest, hpop, hs⟩ := processDel_ok hdel
          subst hs
          intro p hp
          exact hinv p (mem_of_mem_dictPop hpop hp)
  case drop =>
      simp only [processAction, hk] at h
      cases hdrop : processDrop s a.streamId with
      | error e => rw [hdrop] at h; cases h
      | ok s3 =>
          rw [hdrop] at h
          cases h
          obtain ⟨v, rest, hpop, hs⟩ := processDrop_ok hdrop
          subst hs
          intro p hp
          exact hinv p (mem_of_mem_dictPop hpop hp)
  case teardown =>
      simp only [processAction, hk] at h
      cases ht : processTeardown done fuel s a.payload with
      | none => rw [ht] at h; cases h
      | some pr =>
          obtain ⟨s3, r⟩ := pr
          rw [ht] at h
          cases h
          obtain ⟨hs, _⟩ := processTeardown_some ht
          subst hs
          intro p hp
          simp at hp

theorem loopRun_stopped (statusOk : String → Bool) (done : String → Nat → Bool)
    (pidExists : Nat → Bool) (times : Nat → Nat) (fuel iter : Nat) {s : StreamMux}
    (queue : List StreamAction) (h : s.stopped = true) :
    loopRun statusOk done pidExists times fuel iter s queue =
      ⟨s, [], queue, 0,
        if queue.isEmpty then LoopOutcome.joined else LoopOutcome.blockedInJoin⟩ := by
  cases queue <;> simp [loopRun, h]

theorem loopRun_inv {statusOk : String → Bool} {done : String → Nat → Bool}
    {pidExists : Nat → Bool} {times : Nat → Nat} {fuel : Nat} :
    ∀ (queue : List StreamAction) (iter : Nat) (s : StreamMux), streamsInv s →
      streamsInv (loopRun statusOk done pidExists times fuel iter s queue).state := by
  intro queue
  induction queue with
  | nil =>
      intro iter s hinv
      cases hs : s.stopped
      · have hst := (orphanStep_streams pidExists (times iter) s).1
        by_cases ho : (orphanStep pidExists (times iter) s).stopped = true
        · simp only [loopRun, hs, Bool.false_eq_true, if_false, ho, if_true]
          intro p hp
          exact hinv p (hst ▸ hp)
        · simp only [loopRun, hs, Bool.false_eq_true, if_false, ho, if_false]
          intro p hp
          exact hinv p (hst ▸ hp)
      · simp only [loopRun, hs, if_true]
        exact hinv
  | cons a rest ih =>
      intro iter s hinv
      cases hs : s.stopped
      · have hst := (orphanStep_streams pidExists (times iter) s).1
        have hinv1 : streamsInv (orphanStep pidExists (times iter) s) := by
          intro p hp
          exact hinv p (hst ▸ hp)
        cases ho : processAction statusOk done fuel (orphanStep pidExists (times iter) s) a with
        | ok s2 =>
            simp only [loopRun, hs, Bool.false_eq_true, if_false, ho]
            exact ih (iter + 1) s2 (processAction_ok_inv ho hinv1)
        | raised e s2 =>
            simp only [loopRun, hs, Bool.false_eq_true, if_false, ho]
            have := processAction_raised_state ho
            subst this
            exact hinv1
        | hang =>
            simp only [loopRun, hs, Bool.false_eq_true, if_false, ho]
            exact hinv1
      · simp only [loopRun, hs, if_true]
        exact hinv

/-! ## Claim theorems -/

/-- Claim C1, counterexample.  The claim says an add for an id already in the
map fails with DuplicateStreamError and leaves the map unchanged.  In the
source, `_process_add` performs no membership check: on a state whose map
holds id "a" with config 1, an add for "a" with config 2 succeeds and the
registered record now carries config 2 — the original context is overwritten,
and no error of any kind is raised. -/
theorem c1_counterexample :
    processAdd true ⟨[("a", ⟨1, true, true, false⟩)], none, none, false, none⟩ "a" 2 =
      Except.ok ⟨[("a", ⟨2, true, true, false⟩)], none, none, false, none⟩ ∧
    (⟨2, true, true, false⟩ : StreamRecord) ≠ ⟨1, true, true, false⟩ :=
  ⟨rfl, by decide⟩

/-- Claim C1, amended: processing an add action never fails on a duplicate
id; it creates, starts and registers a new Execution Context under the id
unconditionally, overwriting any existing entry, and afterwards the lookup
for that id yields the new record (with the new config). -/
theorem c1_add_overwrites (s : StreamMux) (streamId : String) (cfg : Nat) :
    processAdd true s streamId cfg =
      Except.ok { s with
        streams := dictInsert s.streams streamId ⟨cfg, true, true, false⟩ } ∧
    dictLookup (dictInsert s.streams streamId ⟨cfg, true, true, false⟩) streamId =
      some ⟨cfg, true, true, false⟩ :=
  ⟨rfl, dictLookup_dictInsert_self _ _ _⟩

/-- Claim C2, counterexample.  The claim says a del for an unregistered id
fails with UnknownStreamError, that the failure surfaces to the blocked
caller via the completion signal, and that the loop continues with later
actions.  In the source, `dict.pop` raises `KeyError`, the exception
propagates out of `_loop`, `set_handled` is never called (the del action
ends with `handledCount = 0`, so the caller blocks forever), and the
following add action is never dequeued. -/
theorem c2_counterexample :
    loopRun (fun _ => true) (fun _ _ => true) (fun _ => true) (fun _ => 50) 2 0 initMux
        [mkAction ActionKind.del "x" 0, mkAction ActionKind.add "a" 5] =
      ⟨initMux, [⟨ActionKind.del, "x", 0, 0⟩], [⟨ActionKind.add, "a", 5, 0⟩], 0,
        LoopOutcome.raised (MuxError.keyError "x")⟩ := by
  decide

/-- Claim C2, amended: for every supervisor state and every id not in the
map, processing a del action for that id raises `KeyError` (the map is left
unchanged since `pop` raises before mutating), the exception propagates out
of the control loop so the loop aborts without processing any subsequent
action, and the action's completion signal is never set. -/
theorem c2_del_unknown_aborts (statusOk : String → Bool)
    (done : String → Nat → Bool) (pidExists : Nat → Bool) (times : Nat → Nat)
    (fuel iter : Nat) (s : StreamMux) (streamId : String) (payload : Nat)
    (rest : List StreamAction) (hstop : s.stopped = false)
    (hpid : pidTruthy s.pid = false)
    (habs : dictLookup s.streams streamId = none) :
    processDel s streamId = Except.error (MuxError.keyError streamId) ∧
    loopRun statusOk done pidExists times fuel iter s
        (mkAction ActionKind.del streamId payload :: rest) =
      ⟨s, [mkAction ActionKind.del streamId payload], rest, 0,
        LoopOutcome.raised (MuxError.keyError streamId)⟩ := by
  have hdel : processDel s streamId = Except.error (MuxError.keyError streamId) := by
    unfold processDel
    rw [dictPop_of_lookup_none habs]
  refine ⟨hdel, ?_⟩
  have horph := orphanStep_disabled pidExists (times iter) s hpid
  have hpa : processAction statusOk done fuel (orphanStep pidExists (times iter) s)
      (mkAction ActionKind.del streamId payload) =
      StepOutcome.raised (MuxError.keyError streamId)
        (orphanStep pidExists (times iter) s) := by
    rw [horph]
    simp [processAction, mkAction, hdel]
  simp only [loopRun, hstop, Bool.false_eq_true, if_false, hpa]
  rw [horph]

/-- Claim C2, amended, witness: concrete instance on the initial state. -/
theorem c2_del_unknown_aborts_witness :
    initMux.stopped = false ∧ pidTruthy initMux.pid = false ∧
    dictLookup initMux.streams "x" = none ∧
    loopRun (fun _ => true) (fun _ _ => true) (fun _ => true) (fun _ => 9) 1 0 initMux
        (mkAction ActionKind.del "x" 0 :: [mkAction ActionKind.add "a" 5]) =
      ⟨initMux, [mkAction ActionKind.del "x" 0], [mkAction ActionKind.add "a" 5], 0,
        LoopOutcome.raised (MuxError.keyError "x")⟩ := by
  refine ⟨rfl, rfl, rfl, ?_⟩
  exact (c2_del_unknown_aborts (fun _ => true) (fun _ _ => true) (fun _ => true)
    (fun _ => 9) 1 0 initMux "x" 0 [mkAction ActionKind.add "a" 5] rfl rfl rfl).2

/-- Claim C3: processing a teardown action snapshots the map, runs the drain
protocol (`_finish_all`) against that snapshot, then clears the map and sets
the stop flag: whenever `_process_teardown` returns (for 0, 1 or N
registered streams), the resulting state is the old one with an empty map
and the stop event set, the accessor-visible id set is empty, and the drain
ran on the pre-teardown snapshot. -/
theorem c3_teardown_clears_and_stops (done : String → Nat → Bool) (fuel : Nat)
    (s : StreamMux) (exitCode : Nat) (s2 : StreamMux) (r : DrainResult)
    (h : processTeardown done fuel s exitCode = some (s2, r)) :
    s2 = { s with streams := [], stopped := true } ∧
    streamNames s2 = [] ∧ s2.stopped = true ∧
    finishAll done fuel exitCode s.streams = some r := by
  obtain ⟨hs, hf⟩ := processTeardown_some h
  subst hs
  exact ⟨rfl, rfl, rfl, hf⟩

/-- Claim C3, witness: teardown of a two-stream state whose workers report
done at the second poll cycle. -/
theorem c3_teardown_witness :
    processTeardown (fun _ c => decide (1 ≤ c)) 5
        ⟨[("a", ⟨1, true, true, false⟩), ("b", ⟨2, true, true, false⟩)],
          none, none, false, none⟩ 0 =
      some (⟨[], none, none, true, none⟩,
        ⟨[("a", 0), ("b", 0)],
          [("a", ⟨1, true, true, false⟩), ("b", ⟨2, true, true, false⟩)], 4, 2⟩) ∧
    streamNames ⟨[], none, none, true, none⟩ = [] := by
  refine ⟨by decide, ?_⟩
  exact (c3_teardown_clears_and_stops (fun _ c => decide (1 ≤ c)) 5
    ⟨[("a", ⟨1, true, true, false⟩), ("b", ⟨2, true, true, false⟩)],
      none, none, false, none⟩ 0 ⟨[], none, none, true, none⟩
    ⟨[("a", 0), ("b", 0)],
      [("a", ⟨1, true, true, false⟩), ("b", ⟨2, true, true, false⟩)], 4, 2⟩
    (by decide)).2.1

/-- Claim C4: the drain protocol first sends every context in the snapshot
the finish-with-exit-code message (`published` lists exactly the snapshot
ids, each with the exit code); when it returns, every context in the
snapshot reported completion at some poll cycle, and only contexts from the
snapshot that reported done are joined; and a context whose poll never
reports done makes `_finish_all` return `none` for every fuel bound — the
protocol (and hence teardown) never returns, as no timeout exists. -/
theorem c4_drain_protocol :
    (∀ (done : String → Nat → Bool) (fuel exitCode : Nat)
        (streams : List (String × StreamRecord)) (r : DrainResult),
        finishAll done fuel exitCode streams = some r →
          r.published = streams.map (fun p => (p.1, exitCode)) ∧
          (∀ p ∈ streams, ∃ c, done p.1 c = true) ∧
          (∀ p ∈ r.joined, p ∈ streams ∧ ∃ c, done p.1 c = true)) ∧
    (∀ (done : String → Nat → Bool) (exitCode : Nat)
        (streams : List (String × StreamRecord)) (p : String × StreamRecord),
        p ∈ streams → (∀ c, done p.1 c = false) →
        ∀ fuel, finishAll done fuel exitCode streams = none) := by
  constructor
  · intro done fuel exitCode streams r h
    cases streams with
    | nil =>
        simp only [finishAll, Option.some.injEq] at h
        subst h
        refine ⟨rfl, ?_, ?_⟩
        · intro p hp; cases hp
        · intro p hp; cases hp
    | cons q t =>
        simp only [finishAll] at h
        cases hd : drainLoop done fuel 0 (q :: t) ⟨[], 0, 0⟩ with
        | none => rw [hd] at h; cases h
        | some d =>
            rw [hd] at h
            cases h
            refine ⟨rfl, drainLoop_all_done hd, ?_⟩
            intro p hp
            rcases drainLoop_joined_mem hd p hp with h1 | h1
            · cases h1
            · exact h1
  · intro done exitCode streams p hp hnever fuel
    cases streams with
    | nil => cases hp
    | cons q t =>
        have hd := drainLoop_never_done hnever fuel 0 (q :: t) ⟨[], 0, 0⟩ hp
        simp only [finishAll, hd]

/-- Claim C4, witness: a stream done from the second cycle on terminates the
drain with the exit message published; a never-done stream makes the drain
return `none` at fuel 7 (and any other fuel). -/
theorem c4_drain_protocol_witness :
    ([("a", (0 : Nat))] =
      ([("a", newStreamRecord 1)] : List (String × StreamRecord)).map
        (fun p => (p.1, 0))) ∧
    finishAll (fun _ _ => false) 7 0 [("b", newStreamRecord 2)] = none := by
  constructor
  · exact (c4_drain_protocol.1 (fun _ c => decide (1 ≤ c)) 3 0
      [("a", newStreamRecord 1)]
      ⟨[("a", 0)], [("a", newStreamRecord 1)], 2, 2⟩ (by decide)).1
  · exact c4_drain_protocol.2 (fun _ _ => false) 0 [("b", newStreamRecord 2)]
      ("b", newStreamRecord 2) (by decide) (fun c => rfl) 7

/-- Claim C6, counterexample.  The claim says the fixed-interval sleep
occurs once per poll cycle, independent of the number of pending contexts.
In the source, `time.sleep(0.1)` sits inside the per-context `for` loop: a
drain of two contexts that both report done in the very first cycle
performs one cycle but two sleeps. -/
theorem c6_counterexample :
    finishAll (fun _ _ => true) 3 0
        [("a", ⟨1, true, true, false⟩), ("b", ⟨2, true, true, false⟩)] =
      some ⟨[("a", 0), ("b", 0)],
        [("a", ⟨1, true, true, false⟩), ("b", ⟨2, true, true, false⟩)], 2, 1⟩ := by
  decide

/-- Claim C6, amended: in every cycle all still-pending contexts are polled,
and the sleep runs once per polled context (inside the `for` loop), so a
completed drain performs, per executed cycle, as many sleeps as there were
pending contexts at that cycle's start: total sleeps is the sum of the
pending-set sizes over the executed cycles, whose count is the number of
cycles. -/
theorem c6_sleep_per_pending_context (done : String → Nat → Bool)
    (fuel c : Nat) (pending : List (String × StreamRecord)) (acc d : DrainState)
    (h : drainLoop done fuel c pending acc = some d) :
    d.sleeps = acc.sleeps + (cyclePendingSizes done fuel c pending).sum ∧
    d.cycles = acc.cycles + (cyclePendingSizes done fuel c pending).length :=
  drainLoop_counts fuel c pending acc d h

/-- Claim C6, amended, witness: a single always-done stream drains in one
cycle with one sleep. -/
theorem c6_sleep_witness :
    drainLoop (fun _ _ => true) 3 0 [("a", ⟨1, true, true, false⟩)] ⟨[], 0, 0⟩ =
      some ⟨[("a", ⟨1, true, true, false⟩)], 1, 1⟩ ∧
    (1 : Nat) = 0 +
      (cyclePendingSizes (fun _ _ => true) 3 0 [("a", ⟨1, true, true, false⟩)]).sum := by
  refine ⟨by decide, ?_⟩
  exact (c6_sleep_per_pending_context (fun _ _ => true) 3 0
    [("a", ⟨1, true, true, false⟩)] ⟨[], 0, 0⟩
    ⟨[("a", ⟨1, true, true, false⟩)], 1, 1⟩ (by decide)).1

/-- Claim C7: the orphan check is throttled — when the previous check's
timestamp is set (non-zero) and less than 2 seconds old, `_check_orphaned`
returns `False` with the state untouched, for every probe oracle (so no
probe is performed); when an owner pid is configured, the throttle window
has passed and the probe reports the process gone, the check returns `True`
after recording the probe time, and the control loop then sets the stop
flag. -/
theorem c7_orphan_throttle_and_stop :
    (∀ (pidExists : Nat → Bool) (now : Nat) (s : StreamMux) (t : Nat),
        s.pidCheckedTs = some t → t ≠ 0 → now < t + 2 →
        checkOrphaned pidExists now s = (false, s)) ∧
    (∀ (pidExists : Nat → Bool) (now : Nat) (s : StreamMux) (p : Nat),
        s.pid = some p → p ≠ 0 → throttled s now = false →
        checkOrphaned pidExists now s =
          (!pidExists p, { s with pidCheckedTs := some now })) ∧
    (∀ (statusOk : String → Bool) (done : String → Nat → Bool)
        (pidExists : Nat → Bool) (times : Nat → Nat) (fuel iter : Nat)
        (s : StreamMux) (queue : List StreamAction) (p : Nat),
        s.stopped = false → s.pid = some p → p ≠ 0 →
        throttled s (times iter) = false → pidExists p = false →
        (loopRun statusOk done pidExists times fuel iter s queue).state.stopped =
          true) := by
  refine ⟨checkOrphaned_throttle, checkOrphaned_probe, ?_⟩
  intro statusOk done pidExists times fuel iter s queue p hstop hpid hp0 hth hgone
  have horph : orphanStep pidExists (times iter) s =
      { s with pidCheckedTs := some (times iter), stopped := true } :=
    orphanStep_detect pidExists (times iter) s p hpid hp0 hth hgone
  cases queue with
  | nil =>
      simp only [loopRun, hstop, Bool.false_eq_true, if_false, horph]
      simp
  | cons a rest =>
      cases ho : processAction statusOk done fuel (orphanStep pidExists (times iter) s) a with
      | ok s2 =>
          have hs2 : s2.stopped = true := by
            obtain ⟨_, _, _, hd⟩ := processAction_ok_fields ho
            rcases hd with hd | ⟨_, hd⟩
            · rw [hd, horph]
            · exact hd
          simp only [loopRun, hstop, Bool.false_eq_true, if_false, ho]
          rw [loopRun_stopped statusOk done pidExists times fuel (iter + 1) rest hs2]
          exact hs2
      | raised e s2 =>
          have hs2 := processAction_raised_state ho
          simp only [loopRun, hstop, Bool.false_eq_true, if_false, ho]
          rw [hs2, horph]
      | hang =>
          simp only [loopRun, hstop, Bool.false_eq_true, if_false, ho]
          rw [horph]

/-- Claim C7, witness: a check 1 second after the previous one is a no-op;
with a dead owner process and an open throttle window the loop stops. -/
theorem c7_orphan_witness :
    (⟨[], none, some 7, false, some 99⟩ : StreamMux).pidCheckedTs = some 99 ∧
    checkOrphaned (fun _ => false) 100 ⟨[], none, some 7, false, some 99⟩ =
      (false, ⟨[], none, some 7, false, some 99⟩) ∧
    (loopRun (fun _ => true) (fun _ _ => true) (fun _ => false) (fun _ => 100) 2 0
        ⟨[], none, some 7, false, none⟩ []).state.stopped = true := by
  refine ⟨rfl, ?_, ?_⟩
  · exact c7_orphan_throttle_and_stop.1 (fun _ => false) 100
      ⟨[], none, some 7, false, some 99⟩ 99 rfl (by decide) (by decide)
  · exact c7_orphan_throttle_and_stop.2.2 (fun _ => true) (fun _ _ => true)
      (fun _ => false) (fun _ => 100) 2 0 ⟨[], none, some 7, false, none⟩ [] 7
      rfl rfl (by decide) rfl rfl

/-- Claim C8: with no owner pid configured (`None`), or with `set_pid(0)`
(zero is falsy in Python), `_check_orphaned` returns `False` immediately and
never updates the last-check timestamp — the state is returned untouched for
every probe oracle — and a control loop run over any action queue can only
end up stopped by processing a teardown action. -/
theorem c8_orphan_detection_disabled :
    (∀ (pidExists : Nat → Bool) (now : Nat) (s : StreamMux),
        pidTruthy s.pid = false →
        checkOrphaned pidExists now s = (false, s)) ∧
    (∀ (statusOk : String → Bool) (done : String → Nat → Bool)
        (pidExists : Nat → Bool) (times : Nat → Nat) (fuel : Nat)
        (queue : List StreamAction) (iter : Nat) (s : StreamMux),
        s.stopped = false → pidTruthy s.pid = false →
        (loopRun statusOk done pidExists times fuel iter s queue).state.stopped =
          true →
        ∃ a ∈ (loopRun statusOk done pidExists times fuel iter s queue).dequeued,
          a.kind = ActionKind.teardown) := by
  constructor
  · exact checkOrphaned_disabled
  · intro statusOk done pidExists times fuel queue
    induction queue with
    | nil =>
        intro iter s hstop hpid hstopped
        exfalso
        simp [loopRun, hstop,
          orphanStep_disabled pidExists (times iter) s hpid] at hstopped
    | cons a rest ih =>
        intro iter s hstop hpid hstopped
        have horph := orphanStep_disabled pidExists (times iter) s hpid
        cases ho : processAction statusOk done fuel
            (orphanStep pidExists (times iter) s) a with
        | ok s2 =>
            simp only [loopRun, hstop, Bool.false_eq_true, if_false, ho] at hstopped ⊢
            rw [horph] at ho
            obtain ⟨hpid2, _, _, hd⟩ := processAction_ok_fields ho
            by_cases hk : a.kind = ActionKind.teardown
            · exact ⟨setHandled a, List.mem_cons_self _ _, hk⟩
            · rcases hd with hd | ⟨hk2, _⟩
              · have hs2stop : s2.stopped = false := by rw [hd, hstop]
                have hs2pid : pidTruthy s2.pid = false := by rw [hpid2]; exact hpid
                obtain ⟨b, hb, hbk⟩ := ih (iter + 1) s2 hs2stop hs2pid hstopped
                exact ⟨b, List.mem_cons_of_mem _ hb, hbk⟩
              · exact absurd hk2 hk
        | raised e s2 =>
            exfalso
            have hs2 := processAction_raised_state ho
            simp only [loopRun, hstop, Bool.false_eq_true, if_false, ho] at hstopped
            rw [hs2, horph, hstop] at hstopped
            simp at hstopped
        | hang =>
            exfalso
            simp only [loopRun, hstop, Bool.false_eq_true, if_false, ho] at hstopped
            rw [horph, hstop] at hstopped
            simp at hstopped

/-- Claim C8, witness: on a pid-less state the check is inert and a loop
that ended stopped must have dequeued the teardown action. -/
theorem c8_orphan_disabled_witness :
    checkOrphaned (fun _ => true) 42 initMux = (false, initMux) ∧
    (∃ a ∈ (loopRun (fun _ => true) (fun _ _ => true) (fun _ => true) (fun _ => 5)
        2 0 initMux [mkAction ActionKind.teardown "na" 0]).dequeued,
      a.kind = ActionKind.teardown) := by
  constructor
  · exact c8_orphan_detection_disabled.1 (fun _ => true) 42 initMux rfl
  · exact c8_orphan_detection_disabled.2 (fun _ => true) (fun _ _ => true)
      (fun _ => true) (fun _ => 5) 2 [mkAction ActionKind.teardown "na" 0] 0 initMux
      rfl rfl (by decide)

/-- Claim C9: a stream id is registered only after `start_thread` has
started the worker thread and the initial `communicate_status` probe was
asserted truthy — a falsy probe raises before registration; starting from
any invariant-satisfying state (in particular the initial one), every
handler and every loop run preserves the invariant that all registered
records are started and probe-acknowledged, and `get_stream` can only ever
return such a record. -/
theorem c9_registration_invariant :
    (∀ (s : StreamMux) (streamId : String) (cfg : Nat),
        processAdd false s streamId cfg = Except.error MuxError.assertionError) ∧
    (∀ (statusOk : Bool) (s : StreamMux) (streamId : String) (cfg : Nat)
        (s2 : StreamMux), processAdd statusOk s streamId cfg = Except.ok s2 →
        streamsInv s → streamsInv s2) ∧
    (∀ (statusOk : String → Bool) (done : String → Nat → Bool)
        (pidExists : Nat → Bool) (times : Nat → Nat) (fuel iter : Nat)
        (s : StreamMux) (queue : List StreamAction), streamsInv s →
        streamsInv (loopRun statusOk done pidExists times fuel iter s queue).state) ∧
    (∀ (s : StreamMux) (streamId : String) (r : StreamRecord), streamsInv s →
        getStream s streamId = Except.ok r →
        r.threadStarted = true ∧ r.probeAcked = true) ∧
    streamsInv initMux := by
  refine ⟨?_, ?_, ?_, ?_, ?_⟩
  · intro s sid cfg
    rfl
  · intro statusOk s sid cfg s2 h hinv
    obtain ⟨_, hs⟩ := processAdd_ok h
    subst hs
    intro p hp
    rcases mem_dictInsert hp with h1 | h1
    · subst h1
      exact ⟨rfl, rfl⟩
    · exact hinv p h1
  · intro statusOk done pidExists times fuel iter s queue hinv
    exact loopRun_inv queue iter s hinv
  · intro s sid r hinv h
    unfold getStream at h
    cases hl : dictLookup s.streams sid with
    | none => rw [hl] at h; cases h
    | some r2 =>
        rw [hl] at h
        cases h
        exact hinv _ (mem_of_dictLookup hl)
  · intro p hp
    cases hp

/-- Claim C9, witness: a successful add on the initial state registers a
started, probe-acknowledged record, and `get_stream` returns it. -/
theorem c9_registration_witness :
    processAdd true initMux "a" 5 =
      Except.ok ⟨[("a", ⟨5, true, true, false⟩)], none, none, false, none⟩ ∧
    streamsInv ⟨[("a", ⟨5, true, true, false⟩)], none, none, false, none⟩ ∧
    ((⟨5, true, true, false⟩ : StreamRecord).threadStarted = true ∧
      (⟨5, true, true, false⟩ : StreamRecord).probeAcked = true) := by
  refine ⟨rfl, ?_, ?_⟩
  · exact c9_registration_invariant.2.1 true initMux "a" 5
      ⟨[("a", ⟨5, true, true, false⟩)], none, none, false, none⟩ rfl (by decide)
  · exact c9_registration_invariant.2.2.2.1
      ⟨[("a", ⟨5, true, true, false⟩)], none, none, false, none⟩ "a"
      ⟨5, true, true, false⟩ (by decide) rfl

/-- Claim C10, counterexample.  The claim says that once the stop flag is
set — by teardown or orphan detection — the loop never dequeues or processes
another action.  In the source, the orphan check runs at the top of the
iteration and `self._action_q.get` runs after it in the same iteration: on a
state with owner pid 7 and a dead owner process, the check sets the stop
flag (final state has the flag set and the probe timestamp recorded), yet
the queued add action is still dequeued, processed (the stream is
registered) and handled before the loop exits. -/
theorem c10_counterexample :
    loopRun (fun _ => true) (fun _ _ => true) (fun _ => false) (fun _ => 100) 3 0
        ⟨[], none, some 7, false, none⟩ [mkAction ActionKind.add "a" 5] =
      ⟨⟨[("a", ⟨5, true, true, false⟩)], none, some 7, true, some 100⟩,
        [⟨ActionKind.add, "a", 5, 1⟩], [], 1, LoopOutcome.joined⟩ := by
  decide

/-- Claim C10, amended: when an iteration begins with the stop flag already
set (as after a processed teardown), the loop exits without dequeuing
anything, the whole queue is left unhandled, and the final queue join
returns only when that queue is empty — otherwise `_loop` blocks in it
forever; when the orphan check sets the flag mid-iteration, that same
iteration still dequeues and processes one more action (the
counterexample), and only the next while-condition check stops the loop. -/
theorem c10_stop_flag_semantics :
    (∀ (statusOk : String → Bool) (done : String → Nat → Bool)
        (pidExists : Nat → Bool) (times : Nat → Nat) (fuel iter : Nat)
        (s : StreamMux) (queue : List StreamAction), s.stopped = true →
        loopRun statusOk done pidExists times fuel iter s queue =
          ⟨s, [], queue, 0,
            if queue.isEmpty then LoopOutcome.joined
            else LoopOutcome.blockedInJoin⟩) ∧
    (∀ (statusOk : String → Bool) (done : String → Nat → Bool)
        (pidExists : Nat → Bool) (times : Nat → Nat) (fuel iter : Nat)
        (s : StreamMux) (a : StreamAction) (rest : List StreamAction)
        (s2 : StreamMux) (r : DrainResult),
        s.stopped = false → pidTruthy s.pid = false →
        a.kind = ActionKind.teardown →
        processTeardown done fuel s a.payload = some (s2, r) →
        loopRun statusOk done pidExists times fuel iter s (a :: rest) =
          ⟨s2, [setHandled a], rest, 1,
            if rest.isEmpty then LoopOutcome.joined
            else LoopOutcome.blockedInJoin⟩) := by
  constructor
  · intro statusOk done pidExists times fuel iter s queue h
    exact loopRun_stopped statusOk done pidExists times fuel iter queue h
  · intro statusOk done pidExists times fuel iter s a rest s2 r hstop hpid hk ht
    have horph := orphanStep_disabled pidExists (times iter) s hpid
    have hpa : processAction statusOk done fuel (orphanStep pidExists (times iter) s)
        a = StepOutcome.ok s2 := by
      rw [horph]
      simp [processAction, hk, ht]
    have hs2 : s2.stopped = true := by
      obtain ⟨hs, _⟩ := processTeardown_some ht
      rw [hs]
    simp only [loopRun, hstop, Bool.false_eq_true, if_false, hpa]
    rw [loopRun_stopped statusOk done pidExists times fuel (iter + 1) rest hs2]

/-- Claim C10, amended, witness: a teardown followed by a queued del leaves
the del unhandled and the final queue join blocked. -/
theorem c10_stop_flag_witness :
    processTeardown (fun _ _ => true) 2
        ⟨[("a", ⟨1, true, true, false⟩)], none, none, false, none⟩ 0 =
      some (⟨[], none, none, true, none⟩,
        ⟨[("a", 0)], [("a", ⟨1, true, true, false⟩)], 1, 1⟩) ∧
    loopRun (fun _ => true) (fun _ _ => true) (fun _ => true) (fun _ => 4) 2 0
        ⟨[("a", ⟨1, true, true, false⟩)], none, none, false, none⟩
        (mkAction ActionKind.teardown "na" 0 :: [mkAction ActionKind.del "q" 0]) =
      ⟨⟨[], none, none, true, none⟩, [⟨ActionKind.teardown, "na", 0, 1⟩],
        [mkAction ActionKind.del "q" 0], 1, LoopOutcome.blockedInJoin⟩ := by
  refine ⟨by decide, ?_⟩
  exact c10_stop_flag_semantics.2 (fun _ => true) (fun _ _ => true) (fun _ => true)
    (fun _ => 4) 2 0 ⟨[("a", ⟨1, true, true, false⟩)], none, none, false, none⟩
    (mkAction ActionKind.teardown "na" 0) [mkAction ActionKind.del "q" 0]
    ⟨[], none, none, true, none⟩ ⟨[("a", 0)], [("a", ⟨1, true, true, false⟩)], 1, 1⟩
    rfl rfl rfl (by decide)

/-- Claim C5, counterexample.  The claim says every action processed by the
control loop has its completion signal set exactly once.  A drop action for
an id absent from the map is dequeued and processed by `_process_action`,
which raises `KeyError` out of `_loop` before `set_handled` is reached: the
action ends with `handledCount = 0`, so its signal is never set and the
blocked caller never returns. -/
theorem c5_counterexample :
    loopRun (fun _ => true) (fun _ _ => true) (fun _ => true) (fun _ => 3) 2 0 initMux
        [mkAction ActionKind.drop "y" 0] =
      ⟨initMux, [⟨ActionKind.drop, "y", 0, 0⟩], [], 0,
        LoopOutcome.raised (MuxError.keyError "y")⟩ := by
  decide

/-- Claim C5, amended: for every queue of fresh actions (signals unset), no
dequeued action ever has its completion signal set more than once; when the
loop ends without a handler exception (joined, blocked in the final join, or
still waiting on an empty queue), every dequeued action was signalled
exactly once, after its operation's effects were applied; and when a handler
raises, the action being processed ends with its signal never set. -/
theorem c5_signal_discipline :
    ∀ (statusOk : String → Bool) (done : String → Nat → Bool)
      (pidExists : Nat → Bool) (times : Nat → Nat) (fuel : Nat)
      (queue : List StreamAction) (iter : Nat) (s : StreamMux) (r : LoopResult),
      loopRun statusOk done pidExists times fuel iter s queue = r →
      (∀ a ∈ queue, a.handledCount = 0) →
      (∀ a ∈ r.dequeued, a.handledCount ≤ 1) ∧
      ((r.outcome = LoopOutcome.joined ∨ r.outcome = LoopOutcome.blockedInJoin ∨
        r.outcome = LoopOutcome.waiting) → ∀ a ∈ r.dequeued, a.handledCount = 1) ∧
      (∀ e, r.outcome = LoopOutcome.raised e →
        ∃ a ∈ r.dequeued, a.handledCount = 0) := by
  intro statusOk done pidExists times fuel queue
  induction queue with
  | nil =>
      intro iter s r hr h0
      subst hr
      cases hs : s.stopped
      · by_cases ho : (orphanStep pidExists (times iter) s).stopped = true <;>
          simp [loopRun, hs, ho]
      · simp [loopRun, hs]
  | cons a rest ih =>
      intro iter s r hr h0
      subst hr
      have h0a : a.handledCount = 0 := h0 a (List.mem_cons_self _ _)
      have h0rest : ∀ b ∈ rest, b.handledCount = 0 :=
        fun b hb => h0 b (List.mem_cons_of_mem _ hb)
      cases hs : s.stopped
      · cases ho : processAction statusOk done fuel
            (orphanStep pidExists (times iter) s) a with
        | ok s2 =>
            obtain ⟨ih1, ih2, ih3⟩ := ih (iter + 1) s2 _ rfl h0rest
            simp only [loopRun, hs, Bool.false_eq_true, if_false, ho]
            refine ⟨?_, ?_, ?_⟩
            · intro b hb
              rcases List.mem_cons.mp hb with hb | hb
              · subst hb
                simp [setHandled, h0a]
              · exact ih1 b hb
            · intro hout b hb
              rcases List.mem_cons.mp hb with hb | hb
              · subst hb
                simp [setHandled, h0a]
              · exact ih2 hout b hb
            · intro e he
              obtain ⟨b, hb, hb0⟩ := ih3 e he
              exact ⟨b, List.mem_cons_of_mem _ hb, hb0⟩
        | raised e2 s2 =>
            simp only [loopRun, hs, Bool.false_eq_true, if_false, ho]
            refine ⟨?_, ?_, ?_⟩
            · intro b hb
              rcases List.mem_cons.mp hb with hb | hb
              · subst hb
                simp [h0a]
              · cases hb
            · intro hout
              rcases hout with h | h | h <;> simp at h
            · intro e he
              exact ⟨a, List.mem_cons_self _ _, h0a⟩
        | hang =>
            simp only [loopRun, hs, Bool.false_eq_true, if_false, ho]
            refine ⟨?_, ?_, ?_⟩
            · intro b hb
              rcases List.mem_cons.mp hb with hb | hb
              · subst hb
                simp [h0a]
              · cases hb
            · intro hout
              rcases hout with h | h | h <;> simp at h
            · intro e he
              simp at he
      · simp [loopRun, hs]

/-- Claim C5, amended, witness: a fresh add action processed to completion
ends with its signal set exactly once. -/
theorem c5_signal_witness :
    (∀ a ∈ [mkAction ActionKind.add "a" 5], a.handledCount = 0) ∧
    (∀ a ∈ (loopRun (fun _ => true) (fun _ _ => true) (fun _ => true) (fun _ => 9)
        1 0 initMux [mkAction ActionKind.add "a" 5]).dequeued,
      a.handledCount = 1) := by
  refine ⟨by decide, ?_⟩
  exact (c5_signal_discipline (fun _ => true) (fun _ _ => true) (fun _ => true)
    (fun _ => 9) 1 [mkAction ActionKind.add "a" 5] 0 initMux _ rfl
    (by decide)).2.1 (Or.inr (Or.inr (by decide)))

end Streams
